import Mathlib

/-!
Verification of the Cloudinary integration layer of the memori repository.

The definitions below are a shallow embedding of the TypeScript source:
`cloudinary-utils` (configuration loading, URL building, public-id
translation and extraction, inventory listing) and the per-gallery cover
resolution logic of `getGalleries`.  Strings are modelled via their
character lists (`String.data`); JavaScript truthiness of optional strings
and numbers is modelled explicitly.
-/

/-- Characters that the JavaScript regular-expression dot does not match
(line terminators per ECMA-262). -/
def isLineTerm (c : Char) : Bool :=
  c = '\n' || c = '\r' || c.val = 0x2028 || c.val = 0x2029

/-- Truthiness of an optional JavaScript string: `undefined` and the empty
string are falsy. -/
def truthy : Option String → Bool
  | none => false
  | some s => !s.data.isEmpty

/-- Modelled from the spec: the comparator of the source's ascending
`localeCompare` sort of asset identifiers.  `String.prototype.localeCompare`
is a locale collation implemented by the platform, not by this repository;
the specification describes the sort as ascending lexicographic, so the
comparator is modelled as code-point lexicographic order.  Theorems whose
conclusion depends on the comparator restrict identifiers to
`plainAsciiChar` characters, on which the platform's default collation and
this order coincide. -/
def charListLe : List Char → List Char → Bool
  | [], _ => true
  | _ :: _, [] => false
  | a :: as, b :: bs => if a = b then charListLe as bs else decide (a < b)

/-- Characters on which the default locale collation orders strings
exactly like code-point order: lowercase ASCII letters, ASCII digits, and
the separators found in asset identifiers.  The set excludes uppercase
letters and the underscore, whose collation weights diverge from
code-point order. -/
def plainAsciiChar (c : Char) : Bool :=
  ('a' ≤ c && c ≤ 'z') || ('0' ≤ c && c ≤ '9') || c = '.' || c = '/' || c = '-'

/-- Decimal digits of a natural number, most significant first, with fuel
(the fuel is always sufficient when called through `natStr`).  This models
JavaScript number-to-string conversion for natural numbers. -/
def natDigitsAux : Nat → Nat → List Char
  | 0, _ => []
  | fuel + 1, n => if n < 10 then [Nat.digitChar n] else natDigitsAux fuel (n / 10) ++ [Nat.digitChar (n % 10)]

/-- Decimal string of a natural number (JavaScript `String(n)`). -/
def natStr (n : Nat) : String :=
  String.mk (natDigitsAux (n + 1) n)

/-- The environment variables read by `getCloudinaryConfig`; `none` models
an unset variable. -/
structure Env where
  PUBLIC_CLOUDINARY_CLOUD_NAME : Option String
  CLOUDINARY_API_KEY : Option String
  CLOUDINARY_API_SECRET : Option String

/-- The `CloudinaryConfig` interface of the source. -/
structure CloudinaryConfig where
  cloudName : String
  apiKey : Option String
  apiSecret : Option String

/-- Source `getCloudinaryConfig`: `null` when the cloud name is falsy
(unset or empty), otherwise the configuration record. -/
def getCloudinaryConfig (env : Env) : Option CloudinaryConfig :=
  match env.PUBLIC_CLOUDINARY_CLOUD_NAME with
  | none => none
  | some cn => if cn.data = [] then none else some ⟨cn, env.CLOUDINARY_API_KEY, env.CLOUDINARY_API_SECRET⟩

/-- The `format` option values of `CloudinaryImageOptions`. -/
inductive ImgFormat
  | auto | webp | jpg | png | avif
deriving DecidableEq

/-- String value of a format option. -/
def ImgFormat.str : ImgFormat → String
  | .auto => "auto"
  | .webp => "webp"
  | .jpg => "jpg"
  | .png => "png"
  | .avif => "avif"

/-- The `crop` option values of `CloudinaryImageOptions`. -/
inductive ImgCrop
  | fill | fit | scale | thumb | limit
deriving DecidableEq

/-- String value of a crop option. -/
def ImgCrop.str : ImgCrop → String
  | .fill => "fill"
  | .fit => "fit"
  | .scale => "scale"
  | .thumb => "thumb"
  | .limit => "limit"

/-- The `gravity` option values of `CloudinaryImageOptions`. -/
inductive ImgGravity
  | auto | face | center | north | south | east | west
deriving DecidableEq

/-- String value of a gravity option. -/
def ImgGravity.str : ImgGravity → String
  | .auto => "auto"
  | .face => "face"
  | .center => "center"
  | .north => "north"
  | .south => "south"
  | .east => "east"
  | .west => "west"

/-- The `quality` option: `"auto"` or a number. -/
inductive ImgQuality
  | auto
  | num (n : Nat)
deriving DecidableEq

/-- The `fetchFormat` option values (unused by the URL builder, kept for
interface fidelity). -/
inductive FetchFmt
  | auto | webp | jpg | png
deriving DecidableEq

/-- The `loading` option values (unused by the URL builder). -/
inductive ImgLoading
  | lazy | eager
deriving DecidableEq

/-- The `CloudinaryImageOptions` interface, fields in source order. -/
structure CloudinaryImageOptions where
  width : Option Nat
  height : Option Nat
  format : Option ImgFormat
  quality : Option ImgQuality
  crop : Option ImgCrop
  gravity : Option ImgGravity
  fetchFormat : Option FetchFmt
  loading : Option ImgLoading
deriving DecidableEq

/-- The default (empty) options object `{}`. -/
def noOptions : CloudinaryImageOptions :=
  ⟨none, none, none, none, none, none, none, none⟩

/-- The `transformations` array built inside `buildCloudinaryUrl`, in the
source's push order: width, height, crop, gravity, quality, format.  A
falsy option (absent, or the number 0) pushes nothing; `format: "auto"` is
deliberately skipped by the source. -/
def transformTokens (o : CloudinaryImageOptions) : List String :=
  (match o.width with
   | some w => if w = 0 then [] else ["w_" ++ natStr w]
   | none => []) ++
  (match o.height with
   | some h => if h = 0 then [] else ["h_" ++ natStr h]
   | none => []) ++
  (match o.crop with
   | some c => ["c_" ++ c.str]
   | none => []) ++
  (match o.gravity with
   | some g => ["g_" ++ g.str]
   | none => []) ++
  (match o.quality with
   | some ImgQuality.auto => ["q_auto"]
   | some (ImgQuality.num n) => if n = 0 then [] else ["q_" ++ natStr n]
   | none => []) ++
  (match o.format with
   | some f => if f = ImgFormat.auto then [] else ["f_" ++ f.str]
   | none => [])

/-- JavaScript `Array.prototype.join(",")`. -/
def joinComma : List String → String
  | [] => ""
  | [s] => s
  | s :: rest => s ++ "," ++ joinComma rest

/-- The `slice(1)` applied when the public id starts with a slash. -/
def cleanOneSlash : List Char → List Char
  | '/' :: rest => rest
  | l => l

/-- The `transformStr` of `buildCloudinaryUrl`: the comma-joined tokens
followed by a slash, or nothing when no token was pushed. -/
def transformSegment (o : CloudinaryImageOptions) : List Char :=
  match transformTokens o with
  | [] => []
  | ts => (joinComma ts).data ++ ['/']

/-- Source `buildCloudinaryUrl`: fails when unconfigured, strips one
leading slash from the public id, serializes the transformations and
produces the fixed URL template. -/
def buildCloudinaryUrl (env : Env) (publicId : String) (options : CloudinaryImageOptions) : Except String String :=
  match getCloudinaryConfig env with
  | none => Except.error "Cloudinary is not configured"
  | some config =>
    Except.ok (String.mk ("https://res.cloudinary.com/".data ++ config.cloudName.data ++
      "/image/upload/".data ++ transformSegment options ++ cleanOneSlash publicId.data))

/-- Source `buildCloudinaryThumbnailUrl`: limit crop, auto quality, auto
format at the given bounds. -/
def buildCloudinaryThumbnailUrl (env : Env) (publicId : String) (width : Nat) (height : Option Nat) : Except String String :=
  buildCloudinaryUrl env publicId
    ⟨some width, height, some ImgFormat.auto, some ImgQuality.auto, some ImgCrop.limit, none, none, none⟩

/-- Source `buildCloudinaryOriginalUrl`: no transformation segment at all. -/
def buildCloudinaryOriginalUrl (env : Env) (publicId : String) : Except String String :=
  match getCloudinaryConfig env with
  | none => Except.error "Cloudinary is not configured"
  | some config =>
    Except.ok (String.mk ("https://res.cloudinary.com/".data ++ config.cloudName.data ++
      "/image/upload/".data ++ cleanOneSlash publicId.data))

/-- Replace every backslash by a forward slash (the source's
global `replace` normalizing path separators). -/
def replaceBS (l : List Char) : List Char :=
  l.map (fun c => if c = '\\' then '/' else c)

/-- The characters of the namespace-root token `"galleries/"`. -/
def gallChars : List Char := "galleries/".data

/-- Whether the regular expression `galleries\/.+$` (with the JavaScript
dot, which excludes line terminators) matches at the start of `l`: the
`"galleries/"` token followed by a nonempty line-terminator-free
remainder running to the end of the input. -/
def galleriesOk (l : List Char) : Bool :=
  gallChars.isPrefixOf l && !(l.drop 10).isEmpty && (l.drop 10).all (fun c => !isLineTerm c)

/-- Scan for the leftmost position where the `(?:^|\/)` alternative
consumes a `'/'` and `galleries\/.+$` matches right after it, returning
the captured group (which always extends to the end of the input). -/
def galleriesScan : List Char → Option (List Char)
  | [] => none
  | c :: rest => if c = '/' && galleriesOk rest then some rest else galleriesScan rest

/-- Leftmost match of `(?:^|\/)(galleries\/.+)$`: the start-of-string
alternative is tried at position 0, then the slash alternative at every
position in order. -/
def galleriesCapture (l : List Char) : Option (List Char) :=
  if galleriesOk l then some l else galleriesScan l

/-- One anchored prefix replacement, modelling `replace(/^pre\//, "")`. -/
def stripHead (l : List Char) (pre : List Char) : List Char :=
  if pre.isPrefixOf l then l.drop pre.length else l

/-- Characters of the `"src/"` prefix stripped by the fallback branch. -/
def srcChars : List Char := "src/".data

/-- Characters of the `"content/"` prefix stripped by the fallback branch. -/
def contentChars : List Char := "content/".data

/-- Character-list core of `localPathToCloudinaryPublicId`: use the
regular-expression capture when it matches, otherwise strip the known
prefixes and force the `"galleries/"` root. -/
def lpToPid (l : List Char) : List Char :=
  match galleriesCapture l with
  | some cap => cap
  | none =>
    let q := stripHead (stripHead l srcChars) contentChars
    if gallChars.isPrefixOf q then q else gallChars ++ q

/-- Source `localPathToCloudinaryPublicId`: normalize separators, then
extract or construct the `galleries/...` public id. -/
def localPathToCloudinaryPublicId (localPath : String) : String :=
  String.mk (lpToPid (replaceBS localPath.data))

/-- Drop characters up to and including the first `'/'`; `none` when there
is no `'/'`.  Used to model one `[^/]+\/` chunk of the extractor regex. -/
def dropThroughSlash : List Char → Option (List Char)
  | [] => none
  | c :: rest => if c = '/' then some rest else dropThroughSlash rest

/-- Consume one `[^/]+\/` chunk: a nonempty run of non-slash characters
followed by a slash.  `none` when the input starts with `'/'` or has no
slash at all. -/
def takeChunk : List Char → Option (List Char)
  | [] => none
  | c :: rest => if c = '/' then none else dropThroughSlash rest

/-- Whether `(.+)$` matches the whole remainder: nonempty and free of line
terminators. -/
def validRest (l : List Char) : Bool :=
  !l.isEmpty && l.all (fun c => !isLineTerm c)

/-- Greedy matching of `(?:[^/]+\/)*(.+)$` with backtracking: consume as
many chunks as possible, then fall back chunk by chunk until the capture
`(.+)$` matches.  The fuel is always at least the list length at the call
sites, so it never runs out before `takeChunk` fails. -/
def starCapAux : Nat → List Char → Option (List Char)
  | 0, l => if validRest l then some l else none
  | fuel + 1, l =>
    match takeChunk l with
    | none => if validRest l then some l else none
    | some l' =>
      match starCapAux fuel l' with
      | some cap => some cap
      | none => if validRest l then some l else none

/-- Greedy backtracking match of `(?:[^/]+\/)*(.+)$` against `l`. -/
def starCap (l : List Char) : Option (List Char) :=
  starCapAux l.length l

/-- The characters of the literal `"/upload/"` of the extractor regex. -/
def uploadChars : List Char := "/upload/".data

/-- Leftmost-match scan of `\/upload\/(?:[^/]+\/)*(.+)$`: at each position
try the literal `"/upload/"`, and on a successful literal but failed
remainder keep scanning to the right, exactly as the regex engine does. -/
def uploadScan : List Char → Option (List Char)
  | [] => none
  | c :: rest =>
    if uploadChars.isPrefixOf (c :: rest) then
      match starCap ((c :: rest).drop 8) with
      | some cap => some cap
      | none => uploadScan rest
    else uploadScan rest

/-- Source `getPublicIdFromCloudinaryUrl`: the capture of
`/\/upload\/(?:[^/]+\/)*(.+)$/`, or `null` when the regex does not match. -/
def getPublicIdFromCloudinaryUrl (url : String) : Option String :=
  (uploadScan url.data).map String.mk

/-- Whether two lists disagree at some position within their common
length.  A clash between a pattern and the start of a window defeats the
pattern for every continuation of the window. -/
def clash : List Char → List Char → Bool
  | [], _ => false
  | _, [] => false
  | p :: ps, c :: cs => (p != c) || clash ps cs

/-- Upper-case hexadecimal digit, as produced by `encodeURIComponent`. -/
def hexUpper (n : Nat) : Char :=
  if n < 10 then Nat.digitChar n else Char.ofNat (65 + (n - 10))

/-- Bytes that `encodeURIComponent` leaves unescaped (the unreserved set). -/
def isUnresByte (b : UInt8) : Bool :=
  let n := b.toNat
  (65 ≤ n && n ≤ 90) || (97 ≤ n && n ≤ 122) || (48 ≤ n && n ≤ 57) ||
  n = 45 || n = 95 || n = 46 || n = 33 || n = 126 || n = 42 || n = 39 || n = 40 || n = 41

/-- Percent-encoding of one byte. -/
def pctByte (b : UInt8) : List Char :=
  ['%', hexUpper (b.toNat / 16), hexUpper (b.toNat % 16)]

/-- JavaScript `encodeURIComponent`: UTF-8 encode, keep unreserved bytes,
percent-encode the rest. -/
def encodeURIComponent (s : String) : String :=
  String.mk (s.toUTF8.toList.foldr
    (fun b acc => (if isUnresByte b then [Char.ofNat b.toNat] else pctByte b) ++ acc) [])

/-- The error message thrown by `listCloudinaryImages` when the
configuration or either credential is missing. -/
def credsMsg : String :=
  "Cloudinary API credentials are required to list images. Please set CLOUDINARY_API_KEY and CLOUDINARY_API_SECRET."

/-- Outcome of the synchronous phase of `listCloudinaryImages`, up to the
point where the network request would be issued: either the thrown
credentials error, or the request URL about to be fetched. -/
inductive ListStart
  | credsError (msg : String)
  | request (url : String)
deriving DecidableEq

/-- Source `listCloudinaryImages`, modelled up to its single `fetch`: the
missing-configuration and missing-credential checks (one shared error for
both), then prefix normalization and the Admin API request URL. -/
def listCloudinaryImagesStart (env : Env) (folderPath : String) : ListStart :=
  match getCloudinaryConfig env with
  | none => ListStart.credsError credsMsg
  | some config =>
    if !truthy config.apiKey || !truthy config.apiSecret then
      ListStart.credsError credsMsg
    else
      let pfx := if folderPath.data.getLast? = some '/' then folderPath else folderPath ++ "/"
      ListStart.request ("https://api.cloudinary.com/v1_1/" ++ config.cloudName ++
        "/resources/image/upload?prefix=" ++ encodeURIComponent pfx ++ "&max_results=500")

/-- One inventory record as returned by `listCloudinaryImages`. -/
structure CloudinaryResource where
  public_id : String
  width : Nat
  height : Nat
  format : String
  bytes : Nat
  url : String
  secure_url : String
deriving DecidableEq

/-- The per-gallery cover resolution of `getGalleries` (source lines 44 to
65), step one: sort the records ascending by public id (the source's
`localeCompare` sort) and build the 600x400 thumbnail URL of the first
one; the empty string when the listing was empty. -/
def firstImageResult (env : Env) (records : List CloudinaryResource) : Except String String :=
  match (records.mergeSort (fun a b => charListLe a.public_id.data b.public_id.data)).head? with
  | some r => buildCloudinaryThumbnailUrl env r.public_id 600 (some 400)
  | none => Except.ok ""

/-- The cover precedence of `getGalleries` after the first-image step:
`entry.data.image || ""`, then the `http` test, then the translated
thumbnail, with the first image as the fallback. -/
def resolveCoverImage (env : Env) (slug : String) (entryImage : Option String) (records : List CloudinaryResource) : Except String String :=
  match firstImageResult env records with
  | Except.error e => Except.error e
  | Except.ok firstImageUrl =>
    match entryImage with
    | none => Except.ok firstImageUrl
    | some s =>
      if s.data = [] then Except.ok firstImageUrl
      else if "http".data.isPrefixOf s.data then Except.ok s
      else buildCloudinaryThumbnailUrl env
        (localPathToCloudinaryPublicId ("galleries/" ++ slug ++ "/" ++ s)) 600 (some 400)

/-- Serialization of a transform spec following the specification wording
for comparison with the source serialization: the six options in the
fixed order width, height, crop, gravity, quality, format; an option that
is present with a truthy value contributes exactly one token with its
fixed prefix letter, an absent or falsy option contributes none, and a
format of `"auto"` is omitted. -/
def specTokenOpt (o : CloudinaryImageOptions) : List (Option String) :=
  [o.width.bind (fun w => if w = 0 then none else some ("w_" ++ natStr w)),
   o.height.bind (fun h => if h = 0 then none else some ("h_" ++ natStr h)),
   o.crop.map (fun c => "c_" ++ c.str),
   o.gravity.map (fun g => "g_" ++ g.str),
   o.quality.bind (fun q => match q with
     | ImgQuality.auto => some "q_auto"
     | ImgQuality.num n => if n = 0 then none else some ("q_" ++ natStr n)),
   o.format.bind (fun f => if f = ImgFormat.auto then none else some ("f_" ++ f.str))]

/-- The token list described by the specification: the present tokens of
`specTokenOpt`, in order. -/
def specTokens (o : CloudinaryImageOptions) : List String :=
  (specTokenOpt o).filterMap id

/-- A loaded configuration fixture used for concrete instances. -/
def env0 : Env := ⟨some "demo", some "key", some "secret"⟩

/-- A transform fixture with several options set at once. -/
def optsMulti : CloudinaryImageOptions :=
  ⟨some 100, some 200, some ImgFormat.webp, some (ImgQuality.num 80),
   some ImgCrop.fill, some ImgGravity.face, none, none⟩

/-- A transform spec whose only option is `format: "auto"`. -/
def optsFormatAuto : CloudinaryImageOptions :=
  ⟨none, none, some ImgFormat.auto, none, none, none, none, none⟩

/-- C6: building a URL with the empty transform spec equals the dedicated
original-URL builder, and neither side fails, whenever the configuration
is loaded. -/
theorem buildUrl_noOptions_eq_originalUrl (env : Env) (publicId : String)
    (hc : (getCloudinaryConfig env).isSome = true) :
    buildCloudinaryUrl env publicId noOptions = buildCloudinaryOriginalUrl env publicId ∧
    ∃ u, buildCloudinaryUrl env publicId noOptions = Except.ok u := by
  rcases h : getCloudinaryConfig env with _ | cfg
  · rw [h] at hc
    simp at hc
  · have hseg : transformSegment noOptions = [] := rfl
    constructor
    · simp [buildCloudinaryUrl, buildCloudinaryOriginalUrl, h, hseg]
    · simp only [buildCloudinaryUrl, h]
      exact ⟨_, rfl⟩

/-- Closed instance of `buildUrl_noOptions_eq_originalUrl` at a loaded
configuration and an identifier carrying its extension. -/
theorem buildUrl_noOptions_eq_originalUrl_witness :
    (getCloudinaryConfig env0).isSome = true ∧
    buildCloudinaryUrl env0 "galleries/g1/x.jpg" noOptions =
      buildCloudinaryOriginalUrl env0 "galleries/g1/x.jpg" :=
  ⟨by decide, (buildUrl_noOptions_eq_originalUrl env0 "galleries/g1/x.jpg" (by decide)).1⟩

/-- C9: an option supplied with the falsy value 0 (width, height, or
numeric quality) produces the same URL as the same spec with that option
omitted. -/
theorem falsy_zero_option_omitted (env : Env) (publicId : String)
    (w h : Option Nat) (f : Option ImgFormat) (q : Option ImgQuality) (c : Option ImgCrop)
    (g : Option ImgGravity) (ff : Option FetchFmt) (ld : Option ImgLoading) :
    buildCloudinaryUrl env publicId ⟨some 0, h, f, q, c, g, ff, ld⟩ =
      buildCloudinaryUrl env publicId ⟨none, h, f, q, c, g, ff, ld⟩ ∧
    buildCloudinaryUrl env publicId ⟨w, some 0, f, q, c, g, ff, ld⟩ =
      buildCloudinaryUrl env publicId ⟨w, none, f, q, c, g, ff, ld⟩ ∧
    buildCloudinaryUrl env publicId ⟨w, h, f, some (ImgQuality.num 0), c, g, ff, ld⟩ =
      buildCloudinaryUrl env publicId ⟨w, h, f, none, c, g, ff, ld⟩ :=
  ⟨rfl, rfl, rfl⟩

/-- Counterexample to C3 as stated: a spec whose only option is
`format: "auto"` contributes no token at all, so the produced URL equals
the URL of the empty spec. -/
theorem formatAuto_token_counterexample :
    transformTokens optsFormatAuto = [] ∧
    buildCloudinaryUrl env0 "pic" optsFormatAuto = buildCloudinaryUrl env0 "pic" noOptions :=
  ⟨rfl, rfl⟩

/-- The filterMap of the identity splits off one optional element as its
`Option.toList`. -/
theorem filterMap_id_cons (x : Option String) (l : List (Option String)) :
    (x :: l).filterMap id = x.toList ++ l.filterMap id := by
  cases x <;> simp [List.filterMap_cons]

/-- C3, amended: the source token serialization agrees with the
specification-style serialization of `specTokens`: one token per present
truthy option, none for a falsy one or for `format: "auto"`, in the fixed
order width, height, crop, gravity, quality, format. -/
theorem transformTokens_eq_specTokens (o : CloudinaryImageOptions) :
    transformTokens o = specTokens o := by
  rcases o with ⟨w, h, f, q, c, g, ff, ld⟩
  simp only [specTokens, specTokenOpt, filterMap_id_cons, List.filterMap_nil, List.append_nil]
  have hw : (match w with
      | some w => if w = 0 then [] else ["w_" ++ natStr w]
      | none => ([] : List String)) =
      (w.bind (fun w => if w = 0 then none else some ("w_" ++ natStr w))).toList := by
    cases w with
    | none => rfl
    | some w => by_cases hw0 : w = 0 <;> simp [hw0]
  have hh : (match h with
      | some h => if h = 0 then [] else ["h_" ++ natStr h]
      | none => ([] : List String)) =
      (h.bind (fun h => if h = 0 then none else some ("h_" ++ natStr h))).toList := by
    cases h with
    | none => rfl
    | some h => by_cases hh0 : h = 0 <;> simp [hh0]
  have hc : (match c with
      | some c => ["c_" ++ c.str]
      | none => ([] : List String)) = (c.map (fun c => "c_" ++ c.str)).toList := by
    cases c <;> rfl
  have hg : (match g with
      | some g => ["g_" ++ g.str]
      | none => ([] : List String)) = (g.map (fun g => "g_" ++ g.str)).toList := by
    cases g <;> rfl
  have hq : (match q with
      | some ImgQuality.auto => ["q_auto"]
      | some (ImgQuality.num n) => if n = 0 then [] else ["q_" ++ natStr n]
      | none => ([] : List String)) =
      (q.bind (fun q => match q with
        | ImgQuality.auto => some "q_auto"
        | ImgQuality.num n => if n = 0 then none else some ("q_" ++ natStr n))).toList := by
    rcases q with _ | _ | n
    · rfl
    · rfl
    · by_cases hn0 : n = 0 <;> simp [hn0]
  have hf : (match f with
      | some f => if f = ImgFormat.auto then [] else ["f_" ++ f.str]
      | none => ([] : List String)) =
      (f.bind (fun f => if f = ImgFormat.auto then none else some ("f_" ++ f.str))).toList := by
    cases f with
    | none => rfl
    | some f => by_cases hfa : f = ImgFormat.auto <;> simp [hfa]
  simp only [transformTokens]
  rw [hw, hh, hc, hg, hq, hf]
  simp [List.append_assoc]

/-- Configurations produced by `getCloudinaryConfig` carry the environment
credentials unchanged. -/
theorem getCloudinaryConfig_fields (env : Env) (c : CloudinaryConfig)
    (h : getCloudinaryConfig env = some c) :
    c.apiKey = env.CLOUDINARY_API_KEY ∧ c.apiSecret = env.CLOUDINARY_API_SECRET := by
  unfold getCloudinaryConfig at h
  rcases henv : env.PUBLIC_CLOUDINARY_CLOUD_NAME with _ | cn
  · rw [henv] at h
    cases h
  · rw [henv] at h
    by_cases hd : cn.data = []
    · simp [hd] at h
    · simp only [hd, if_false, Option.some_inj] at h
      rw [← h]
      exact ⟨rfl, rfl⟩

/-- A falsy cloud-name variable yields no configuration. -/
theorem getCloudinaryConfig_none (env : Env)
    (h : truthy env.PUBLIC_CLOUDINARY_CLOUD_NAME = false) :
    getCloudinaryConfig env = none := by
  unfold getCloudinaryConfig
  rcases henv : env.PUBLIC_CLOUDINARY_CLOUD_NAME with _ | cn
  · rfl
  · rw [henv] at h
    simp only [truthy, Bool.not_eq_false'] at h
    simp [List.isEmpty_iff.mp h]

/-- C8: whenever the API key or the API secret is absent (or empty), the
listing operation fails with the credentials error, before any network
request is formed. -/
theorem listStart_missing_creds (env : Env) (folderPath : String)
    (h : truthy env.CLOUDINARY_API_KEY = false ∨ truthy env.CLOUDINARY_API_SECRET = false) :
    listCloudinaryImagesStart env folderPath = ListStart.credsError credsMsg := by
  unfold listCloudinaryImagesStart
  rcases hcfg : getCloudinaryConfig env with _ | c
  · rfl
  · obtain ⟨hk, hs⟩ := getCloudinaryConfig_fields env c hcfg
    rcases h with h | h
    · simp [hk, h]
    · simp [hk, hs, h]

/-- Closed instance of `listStart_missing_creds`: a configured cloud name
with no API key fails with the credentials error. -/
theorem listStart_missing_creds_witness :
    listCloudinaryImagesStart ⟨some "demo", none, some "secret"⟩ "galleries/trip" =
      ListStart.credsError credsMsg :=
  listStart_missing_creds ⟨some "demo", none, some "secret"⟩ "galleries/trip" (Or.inl rfl)

/-- Counterexample to C2 as stated: a configuration missing only the
cloud name and a configuration with a cloud name but no API key produce
identical errors from the listing operation, so the two failures are not
distinguishable. -/
theorem listStart_noCloudName_error_not_distinct :
    listCloudinaryImagesStart ⟨none, some "key", some "secret"⟩ "galleries/trip" =
      listCloudinaryImagesStart ⟨some "demo", none, some "secret"⟩ "galleries/trip" ∧
    listCloudinaryImagesStart ⟨none, some "key", some "secret"⟩ "galleries/trip" =
      ListStart.credsError credsMsg :=
  ⟨rfl, rfl⟩

/-- C2, amended: with the cloud name absent the listing operation fails
before any network request with the very same credentials error that is
raised when the cloud name is present but a credential is missing. -/
theorem listStart_noCloudName_same_creds_error (env env' : Env) (f f' : String)
    (h : truthy env.PUBLIC_CLOUDINARY_CLOUD_NAME = false)
    (h' : truthy env'.CLOUDINARY_API_KEY = false ∨ truthy env'.CLOUDINARY_API_SECRET = false) :
    listCloudinaryImagesStart env f = ListStart.credsError credsMsg ∧
    listCloudinaryImagesStart env f = listCloudinaryImagesStart env' f' := by
  have h1 : listCloudinaryImagesStart env f = ListStart.credsError credsMsg := by
    unfold listCloudinaryImagesStart
    rw [getCloudinaryConfig_none env h]
  exact ⟨h1, h1.trans (listStart_missing_creds env' f' h').symm⟩

/-- Closed instance of `listStart_noCloudName_same_creds_error` at the two
concrete degenerate configurations. -/
theorem listStart_noCloudName_same_creds_error_witness :
    listCloudinaryImagesStart ⟨none, some "key", some "secret"⟩ "galleries/a" =
      ListStart.credsError credsMsg ∧
    listCloudinaryImagesStart ⟨none, some "key", some "secret"⟩ "galleries/a" =
      listCloudinaryImagesStart ⟨some "demo", none, some "secret"⟩ "galleries/b" :=
  listStart_noCloudName_same_creds_error ⟨none, some "key", some "secret"⟩
    ⟨some "demo", none, some "secret"⟩ "galleries/a" "galleries/b" rfl (Or.inl rfl)

/-- The code-point order on character lists is total. -/
theorem charListLe_total : ∀ a b : List Char, (charListLe a b || charListLe b a) = true := by
  intro a
  induction a with
  | nil => intro b; simp [charListLe]
  | cons x xs ih =>
    intro b
    cases b with
    | nil => simp [charListLe]
    | cons y ys =>
      by_cases hxy : x = y
      · subst hxy
        simp only [charListLe, if_pos rfl]
        exact ih ys
      · have hyx : ¬ y = x := fun hh => hxy hh.symm
        simp only [charListLe, if_neg hxy, if_neg hyx]
        rcases lt_trichotomy x y with hlt | heq | hgt
        · simp [hlt]
        · exact absurd heq hxy
        · simp [hgt]

/-- The code-point order on character lists is transitive. -/
theorem charListLe_trans : ∀ a b c : List Char,
    charListLe a b = true → charListLe b c = true → charListLe a c = true := by
  intro a
  induction a with
  | nil => intro b c _ _; simp [charListLe]
  | cons x xs ih =>
    intro b c hab hbc
    cases b with
    | nil => simp [charListLe] at hab
    | cons y ys =>
      cases c with
      | nil => simp [charListLe] at hbc
      | cons z zs =>
        by_cases hxy : x = y <;> by_cases hyz : y = z
        · subst hxy
          subst hyz
          simp only [charListLe, if_pos rfl] at hab hbc ⊢
          exact ih ys zs hab hbc
        · subst hxy
          simp only [charListLe, if_pos rfl, if_neg hyz] at hab hbc ⊢
          exact hbc
        · subst hyz
          simp only [charListLe, if_pos rfl, if_neg hxy] at hab hbc ⊢
          exact hab
        · simp only [charListLe, if_neg hxy, if_neg hyz, decide_eq_true_eq] at hab hbc
          have hxz : x < z := lt_trans hab hbc
          simp only [charListLe, if_neg (ne_of_lt hxz), decide_eq_true_eq]
          exact hxz

/-- The code-point order on character lists is antisymmetric. -/
theorem charListLe_antisymm : ∀ a b : List Char,
    charListLe a b = true → charListLe b a = true → a = b := by
  intro a
  induction a with
  | nil =>
    intro b _ hba
    cases b with
    | nil => rfl
    | cons y ys => simp [charListLe] at hba
  | cons x xs ih =>
    intro b hab hba
    cases b with
    | nil => simp [charListLe] at hab
    | cons y ys =>
      by_cases hxy : x = y
      · subst hxy
        simp only [charListLe, if_pos rfl] at hab hba
        rw [ih ys hab hba]
      · have hyx : ¬ y = x := fun hh => hxy hh.symm
        simp only [charListLe, if_neg hxy, if_neg hyx, decide_eq_true_eq] at hab hba
        exact absurd hba (lt_asymm hab)

/-- Strings with the same character data are equal. -/
theorem string_data_inj (a b : String) (h : a.data = b.data) : a = b := by
  cases a
  cases b
  exact congrArg String.mk h

/-- The identity rebuild of an `Except` value. -/
theorem except_match_id (x : Except String String) :
    (match x with | Except.error e => Except.error e | Except.ok u => Except.ok u) = x := by
  cases x <;> rfl

/-- C7: a declared non-`http` cover image takes precedence over any
inventory-derived first asset: the resolved cover is the 600x400
thumbnail of the translated declared filename. -/
theorem resolveCover_declared_image (env : Env) (records : List CloudinaryResource) :
    resolveCoverImage env "trip" (some "cover.jpg") records =
      buildCloudinaryThumbnailUrl env "galleries/trip/cover.jpg" 600 (some 400) := by
  have htr : buildCloudinaryThumbnailUrl env
      (localPathToCloudinaryPublicId ("galleries/" ++ "trip" ++ "/" ++ "cover.jpg")) 600 (some 400) =
      buildCloudinaryThumbnailUrl env "galleries/trip/cover.jpg" 600 (some 400) := rfl
  unfold resolveCoverImage
  rcases hf : firstImageResult env records with e | u
  · have he : getCloudinaryConfig env = none := by
      unfold firstImageResult at hf
      rcases hh : (records.mergeSort (fun a b => charListLe a.public_id.data b.public_id.data)).head? with _ | r
      · rw [hh] at hf
        cases hf
      · rw [hh] at hf
        unfold buildCloudinaryThumbnailUrl buildCloudinaryUrl at hf
        rcases hcfg : getCloudinaryConfig env with _ | c
        · rfl
        · rw [hcfg] at hf
          cases hf
    have he2 : e = "Cloudinary is not configured" := by
      unfold firstImageResult at hf
      rcases hh : (records.mergeSort (fun a b => charListLe a.public_id.data b.public_id.data)).head? with _ | r
      · rw [hh] at hf
        cases hf
      · rw [hh] at hf
        unfold buildCloudinaryThumbnailUrl buildCloudinaryUrl at hf
        rw [he] at hf
        cases hf
        rfl
    rw [← htr]
    unfold buildCloudinaryThumbnailUrl buildCloudinaryUrl
    rw [he, he2]
  · rw [← htr]
    rfl

/-- C5: with no declared cover image and a non-empty inventory of
identifiers over `plainAsciiChar` characters (where the platform
collation used by the source's sort coincides with the modelled
lexicographic order), the resolved cover URL is the 600x400 thumbnail URL
of the record whose identifier is lexicographically smallest. -/
theorem resolveCover_min_identifier (env : Env) (slug : String)
    (records : List CloudinaryResource) (m : String)
    (hplain : ∀ r ∈ records, ∀ c ∈ r.public_id.data, plainAsciiChar c = true)
    (hne : records ≠ [])
    (hmem : m ∈ records.map (fun r => r.public_id))
    (hmin : ∀ x ∈ records.map (fun r => r.public_id), charListLe m.data x.data = true) :
    resolveCoverImage env slug none records = buildCloudinaryThumbnailUrl env m 600 (some 400) := by
  have hperm : List.Perm
      (records.mergeSort (fun a b => charListLe a.public_id.data b.public_id.data)) records :=
    List.mergeSort_perm records _
  have hsne : records.mergeSort (fun a b => charListLe a.public_id.data b.public_id.data) ≠ [] := by
    intro hcon
    rw [hcon] at hperm
    exact hne hperm.nil_eq.symm
  obtain ⟨r, rest, hsorted⟩ := List.exists_cons_of_ne_nil hsne
  have hmemr : r ∈ records := by
    refine hperm.mem_iff.mp ?_
    rw [hsorted]
    exact List.mem_cons_self r rest
  have hpair := @List.sorted_mergeSort CloudinaryResource
    (fun a b => charListLe a.public_id.data b.public_id.data)
    (fun a b c hab hbc => charListLe_trans _ _ _ hab hbc)
    (fun a b => charListLe_total a.public_id.data b.public_id.data)
    records
  rw [hsorted] at hpair
  have hr : ∀ x ∈ rest, charListLe r.public_id.data x.public_id.data = true :=
    fun x hx => (List.pairwise_cons.mp hpair).1 x hx
  obtain ⟨rm, hrm, hrmid⟩ := List.mem_map.mp hmem
  have hrms : rm ∈ records.mergeSort (fun a b => charListLe a.public_id.data b.public_id.data) :=
    hperm.mem_iff.mpr hrm
  rw [hsorted] at hrms
  have hid : r.public_id = m := by
    rcases List.mem_cons.mp hrms with he | hrest
    · rw [← he]
      exact hrmid
    · have h1 : charListLe r.public_id.data m.data = true := by
        have := hr rm hrest
        rw [hrmid] at this
        exact this
      have h2 : charListLe m.data r.public_id.data = true :=
        hmin r.public_id (List.mem_map.mpr ⟨r, hmemr, rfl⟩)
      exact (string_data_inj _ _ (charListLe_antisymm _ _ h2 h1)).symm
  unfold resolveCoverImage firstImageResult
  rw [hsorted]
  simp only [List.head?_cons]
  rw [hid]
  exact except_match_id _

/-- Closed instance of `resolveCover_min_identifier`: inventory
`[b.jpg, a.jpg]` with no declared cover resolves to the thumbnail of
`a.jpg`, the lexicographically first identifier. -/
theorem resolveCover_min_identifier_witness :
    ([(⟨"galleries/trip/b.jpg", 800, 600, "jpg", 1000, "", ""⟩ : CloudinaryResource),
      ⟨"galleries/trip/a.jpg", 800, 600, "jpg", 1000, "", ""⟩] ≠ []) ∧
    resolveCoverImage env0 "trip" none
      [⟨"galleries/trip/b.jpg", 800, 600, "jpg", 1000, "", ""⟩,
       ⟨"galleries/trip/a.jpg", 800, 600, "jpg", 1000, "", ""⟩] =
      buildCloudinaryThumbnailUrl env0 "galleries/trip/a.jpg" 600 (some 400) :=
  ⟨by decide,
   resolveCover_min_identifier env0 "trip"
     [⟨"galleries/trip/b.jpg", 800, 600, "jpg", 1000, "", ""⟩,
      ⟨"galleries/trip/a.jpg", 800, 600, "jpg", 1000, "", ""⟩]
     "galleries/trip/a.jpg" (by decide) (by decide) (by decide) (by decide)⟩

/-- The separator normalization produces no backslash. -/
theorem replaceBS_no_bs (l : List Char) : ∀ c ∈ replaceBS l, c ≠ '\\' := by
  intro c hc
  rcases List.mem_map.mp hc with ⟨a, _, ha2⟩
  rw [← ha2]
  show (if a = '\\' then '/' else a) ≠ '\\'
  by_cases hab : a = '\\'
  · rw [if_pos hab]
    decide
  · rw [if_neg hab]
    exact hab

/-- The separator normalization is the identity on backslash-free input. -/
theorem replaceBS_id (l : List Char) (h : ∀ c ∈ l, c ≠ '\\') : replaceBS l = l := by
  induction l with
  | nil => rfl
  | cons c rest ih =>
    have hc : c ≠ '\\' := h c (List.mem_cons_self c rest)
    have hrest := ih (fun x hx => h x (List.mem_cons_of_mem c hx))
    simp only [replaceBS, List.map_cons] at *
    rw [if_neg hc, hrest]

/-- The components of a successful `galleries\/.+$` match. -/
theorem galleriesOk_fields (l : List Char) (h : galleriesOk l = true) :
    gallChars.isPrefixOf l = true ∧ (l.drop 10).isEmpty = false ∧
    (l.drop 10).all (fun c => !isLineTerm c) = true := by
  simp only [galleriesOk, Bool.and_eq_true, Bool.not_eq_true'] at h
  exact ⟨h.1.1, h.1.2, h.2⟩

/-- A successful slash-alternative scan returns a matching captured group
that sits right after a slash inside the input. -/
theorem galleriesScan_some (l : List Char) (t : List Char) (h : galleriesScan l = some t) :
    galleriesOk t = true ∧ ('/' :: t) <:+ l := by
  induction l with
  | nil => cases h
  | cons c rest ih =>
    simp only [galleriesScan] at h
    by_cases hcond : (decide (c = '/') && galleriesOk rest) = true
    · rw [if_pos hcond] at h
      cases h
      simp only [Bool.and_eq_true, decide_eq_true_eq] at hcond
      refine ⟨hcond.2, ?_⟩
      rw [hcond.1]
    · rw [if_neg hcond] at h
      obtain ⟨h1, h2⟩ := ih h
      exact ⟨h1, h2.trans (List.suffix_cons c rest)⟩

/-- The slash-alternative scan fails exactly when no slash-preceded
suffix matches `galleries\/.+$`. -/
theorem galleriesScan_none_iff (l : List Char) :
    galleriesScan l = none ↔ ∀ t, ('/' :: t) <:+ l → galleriesOk t = false := by
  induction l with
  | nil =>
    constructor
    · intro _ t ht
      cases List.eq_nil_of_suffix_nil ht
    · intro _
      rfl
  | cons c rest ih =>
    constructor
    · intro h t ht
      simp only [galleriesScan] at h
      by_cases hcond : (decide (c = '/') && galleriesOk rest) = true
      · rw [if_pos hcond] at h
        cases h
      · rw [if_neg hcond] at h
        rcases List.suffix_cons_iff.mp ht with he | hs
        · injection he with he1 he2
          rw [← he1] at hcond
          rw [he2]
          rw [Bool.eq_false_iff]
          intro hcon
          rw [hcon] at hcond
          exact hcond (by decide)
        · exact ih.mp h t hs
    · intro hall
      simp only [galleriesScan]
      have hcond : (decide (c = '/') && galleriesOk rest) = false := by
        by_cases hc : c = '/'
        · subst hc
          have := hall rest (List.suffix_refl _)
          simp [this]
        · simp [hc]
      rw [if_neg (by rw [hcond]; exact Bool.false_ne_true)]
      exact ih.mpr (fun t ht => hall t (ht.trans (List.suffix_cons c rest)))

/-- A successful capture satisfies the match predicate and is a suffix of
the input. -/
theorem galleriesCapture_some (l cap : List Char) (h : galleriesCapture l = some cap) :
    galleriesOk cap = true ∧ cap <:+ l := by
  unfold galleriesCapture at h
  by_cases hok : galleriesOk l = true
  · rw [if_pos hok] at h
    cases h
    exact ⟨hok, List.suffix_refl _⟩
  · rw [if_neg hok] at h
    obtain ⟨h1, h2⟩ := galleriesScan_some l cap h
    exact ⟨h1, (List.suffix_cons '/' cap).trans h2⟩

/-- A failed capture means both alternatives failed. -/
theorem galleriesCapture_none (l : List Char) (h : galleriesCapture l = none) :
    galleriesOk l = false ∧ galleriesScan l = none := by
  unfold galleriesCapture at h
  by_cases hok : galleriesOk l = true
  · rw [if_pos hok] at h
    cases h
  · rw [if_neg hok] at h
    exact ⟨Bool.eq_false_iff.mpr hok, h⟩

/-- The start-of-string alternative captures the whole input when it
matches there. -/
theorem galleriesCapture_of_ok (l : List Char) (h : galleriesOk l = true) :
    galleriesCapture l = some l := by
  unfold galleriesCapture
  rw [if_pos h]

/-- One anchored prefix strip returns a suffix of its input. -/
theorem stripHead_suffix (l pre : List Char) : stripHead l pre <:+ l := by
  unfold stripHead
  by_cases h : pre.isPrefixOf l = true
  · rw [if_pos h]
    exact List.drop_suffix _ _
  · rw [if_neg h]

/-- A suffix of an append is a suffix of the right part or extends it by a
suffix of the left part. -/
theorem suffix_of_append_cases (s l1 l2 : List Char) (h : s <:+ l1 ++ l2) :
    s <:+ l2 ∨ ∃ s1, s = s1 ++ l2 ∧ s1 <:+ l1 := by
  induction l1 with
  | nil => exact Or.inl h
  | cons a t ih =>
    rcases List.suffix_cons_iff.mp h with h1 | h2
    · exact Or.inr ⟨a :: t, h1, List.suffix_refl _⟩
    · rcases ih h2 with h3 | ⟨s1, e, hs⟩
      · exact Or.inl h3
      · exact Or.inr ⟨s1, e, hs.trans (List.suffix_cons a t)⟩

/-- The only suffix of `"galleries/"` that starts with a slash is the
final slash itself. -/
theorem gallChars_tails_fact :
    ∀ s ∈ gallChars.tails, s.head? = some '/' → s = ['/'] := by decide

/-- The namespace-root token contains no backslash. -/
theorem gallChars_no_bs : ∀ c ∈ gallChars, c ≠ '\\' := by decide

/-- Any list is a `isPrefixOf` of itself followed by anything. -/
theorem isPrefixOf_self_append (l t : List Char) : l.isPrefixOf (l ++ t) = true := by
  rw [ List.isPrefixOf_iff_prefix]
  exact List.prefix_append l t

/-- A `"galleries/"`-rooted list is prefixed by neither `"src/"` nor
`"content/"`. -/
theorem src_content_not_prefix_of_gall (r : List Char) (hpre : gallChars.isPrefixOf r = true) :
    srcChars.isPrefixOf r = false ∧ contentChars.isPrefixOf r = false := by
  rw [ List.isPrefixOf_iff_prefix] at hpre
  obtain ⟨u, hu⟩ := hpre
  subst hu
  constructor
  · rw [Bool.eq_false_iff]
    intro hcon
    rw [ List.isPrefixOf_iff_prefix] at hcon
    obtain ⟨v, hv⟩ := hcon
    have hv2 : 's' :: 'r' :: 'c' :: '/' :: v =
        'g' :: 'a' :: 'l' :: 'l' :: 'e' :: 'r' :: 'i' :: 'e' :: 's' :: '/' :: u := hv
    injection hv2 with h1 _
    exact absurd h1 (by decide)
  · rw [Bool.eq_false_iff]
    intro hcon
    rw [ List.isPrefixOf_iff_prefix] at hcon
    obtain ⟨v, hv⟩ := hcon
    have hv2 : 'c' :: 'o' :: 'n' :: 't' :: 'e' :: 'n' :: 't' :: '/' :: v =
        'g' :: 'a' :: 'l' :: 'l' :: 'e' :: 'r' :: 'i' :: 'e' :: 's' :: '/' :: u := hv
    injection hv2 with h1 _
    exact absurd h1 (by decide)

/-- A `"galleries/"`-rooted list on which the slash-alternative scan fails
is a fixed point of the translator core. -/
theorem lpToPid_fix (r : List Char)
    (hpre : gallChars.isPrefixOf r = true)
    (hscan : galleriesOk r = false → galleriesScan r = none) : lpToPid r = r := by
  by_cases hok : galleriesOk r = true
  · unfold lpToPid
    rw [galleriesCapture_of_ok r hok]
  · have hcapn : galleriesCapture r = none := by
      unfold galleriesCapture
      rw [if_neg hok]
      exact hscan (Bool.eq_false_iff.mpr hok)
    unfold lpToPid
    rw [hcapn]
    obtain ⟨hsrc, hcont⟩ := src_content_not_prefix_of_gall r hpre
    have hs1 : stripHead r srcChars = r := by
      unfold stripHead
      rw [if_neg (by rw [hsrc]; exact Bool.false_ne_true)]
    have hs2 : stripHead r contentChars = r := by
      unfold stripHead
      rw [if_neg (by rw [hcont]; exact Bool.false_ne_true)]
    rw [hs1, hs2, if_pos hpre]

/-- The translator core always produces a `"galleries/"`-rooted list. -/
theorem lpToPid_gall (l : List Char) : gallChars.isPrefixOf (lpToPid l) = true := by
  unfold lpToPid
  rcases hcap : galleriesCapture l with _ | cap
  · by_cases hgq : gallChars.isPrefixOf (stripHead (stripHead l srcChars) contentChars) = true
    · rw [if_pos hgq]
      exact hgq
    · rw [if_neg hgq]
      exact isPrefixOf_self_append _ _
  · exact (galleriesOk_fields cap (galleriesCapture_some l cap hcap).1).1

/-- The translator core preserves backslash-freeness. -/
theorem lpToPid_no_bs (l : List Char) (h : ∀ c ∈ l, c ≠ '\\') :
    ∀ c ∈ lpToPid l, c ≠ '\\' := by
  intro c hc
  unfold lpToPid at hc
  rcases hcap : galleriesCapture l with _ | cap
  · rw [hcap] at hc
    have hqs : stripHead (stripHead l srcChars) contentChars <:+ l :=
      (stripHead_suffix _ _).trans (stripHead_suffix _ _)
    by_cases hgq : gallChars.isPrefixOf (stripHead (stripHead l srcChars) contentChars) = true
    · rw [if_pos hgq] at hc
      exact h c (hqs.subset hc)
    · rw [if_neg hgq] at hc
      rcases List.mem_append.mp hc with hin | hin
      · exact gallChars_no_bs c hin
      · exact h c (hqs.subset hin)
  · rw [hcap] at hc
    exact h c ((galleriesCapture_some l cap hcap).2.subset hc)

/-- The translator core is idempotent. -/
theorem lpToPid_idem (l : List Char) : lpToPid (lpToPid l) = lpToPid l := by
  rcases hcap : galleriesCapture l with _ | cap
  · obtain ⟨hokl, hscanl⟩ := galleriesCapture_none l hcap
    have hql : stripHead (stripHead l srcChars) contentChars <:+ l :=
      (stripHead_suffix _ _).trans (stripHead_suffix _ _)
    have hl : lpToPid l =
        if gallChars.isPrefixOf (stripHead (stripHead l srcChars) contentChars) = true
        then stripHead (stripHead l srcChars) contentChars
        else gallChars ++ stripHead (stripHead l srcChars) contentChars := by
      unfold lpToPid
      rw [hcap]
    by_cases hgq : gallChars.isPrefixOf (stripHead (stripHead l srcChars) contentChars) = true
    · rw [hl, if_pos hgq]
      refine lpToPid_fix _ hgq (fun _ => ?_)
      rw [galleriesScan_none_iff]
      intro t ht
      exact (galleriesScan_none_iff l).mp hscanl t (ht.trans hql)
    · rw [hl, if_neg hgq]
      refine lpToPid_fix _ (isPrefixOf_self_append _ _) (fun _ => ?_)
      rw [galleriesScan_none_iff]
      intro t ht
      rcases suffix_of_append_cases _ _ _ ht with hin | ⟨s1, he, hs1⟩
      · exact (galleriesScan_none_iff l).mp hscanl t (hin.trans hql)
      · cases s1 with
        | nil =>
          simp only [List.nil_append] at he
          refine (galleriesScan_none_iff l).mp hscanl t ?_
          rw [he]
          exact hql
        | cons x s1' =>
          have hx : '/' = x := by
            have he2 : '/' :: t = x :: (s1' ++ stripHead (stripHead l srcChars) contentChars) := he
            injection he2 with h1 _
          have hsingle : (x :: s1') = ['/'] :=
            gallChars_tails_fact (x :: s1') ((List.mem_tails _ _).mpr hs1)
              (by rw [← hx]; rfl)
          rw [hsingle] at he
          have he3 : '/' :: t =
              '/' :: stripHead (stripHead l srcChars) contentChars := he
          injection he3 with _ h2
          rw [h2]
          have hgq2 : gallChars.isPrefixOf (stripHead (stripHead l srcChars) contentChars) = false :=
            Bool.eq_false_iff.mpr hgq
          simp [galleriesOk, hgq2]
  · have hl : lpToPid l = cap := by
      unfold lpToPid
      rw [hcap]
    obtain ⟨hok, _⟩ := galleriesCapture_some l cap hcap
    rw [hl]
    refine lpToPid_fix cap (galleriesOk_fields cap hok).1 (fun hfalse => ?_)
    rw [hok] at hfalse
    cases hfalse

/-- C10: the path translator is idempotent — feeding an output back
through the translator leaves it unchanged. -/
theorem localPathToCloudinaryPublicId_idem (p : String) :
    localPathToCloudinaryPublicId (localPathToCloudinaryPublicId p) =
      localPathToCloudinaryPublicId p := by
  unfold localPathToCloudinaryPublicId
  have h1 : ∀ c ∈ lpToPid (replaceBS p.data), c ≠ '\\' :=
    lpToPid_no_bs _ (replaceBS_no_bs _)
  rw [show (String.mk (lpToPid (replaceBS p.data))).data = lpToPid (replaceBS p.data) from rfl]
  rw [replaceBS_id _ h1, lpToPid_idem]

/-- C4: on any input containing the namespace-root segment, the
translated public id contains no backslash, does not start with a slash,
and begins with the namespace root `"galleries"`. -/
theorem localPathToCloudinaryPublicId_invariants (p : String)
    (hns : gallChars <:+: p.data) :
    (∀ c ∈ (localPathToCloudinaryPublicId p).data, c ≠ '\\') ∧
    (localPathToCloudinaryPublicId p).data.head? ≠ some '/' ∧
    "galleries".data <+: (localPathToCloudinaryPublicId p).data := by
  have hbs : ∀ c ∈ (localPathToCloudinaryPublicId p).data, c ≠ '\\' :=
    lpToPid_no_bs _ (replaceBS_no_bs _)
  have hgp : gallChars.isPrefixOf (localPathToCloudinaryPublicId p).data = true :=
    lpToPid_gall _
  rw [ List.isPrefixOf_iff_prefix] at hgp
  obtain ⟨u, hu⟩ := hgp
  refine ⟨hbs, ?_, ?_⟩
  · rw [← hu]
    intro hcon
    have : some 'g' = some '/' := hcon
    cases this
  · rw [← hu]
    have : "galleries".data ++ ['/'] = gallChars := rfl
    rw [← this, List.append_assoc]
    exact List.prefix_append _ _

/-- Closed instance of `localPathToCloudinaryPublicId_invariants` at a
relative path containing the namespace root. -/
theorem localPathToCloudinaryPublicId_invariants_witness :
    (gallChars <:+: ("../../content/galleries/trip/a.jpg" : String).data) ∧
    (∀ c ∈ (localPathToCloudinaryPublicId "../../content/galleries/trip/a.jpg").data, c ≠ '\\') ∧
    (localPathToCloudinaryPublicId "../../content/galleries/trip/a.jpg").data.head? ≠ some '/' ∧
    "galleries".data <+: (localPathToCloudinaryPublicId "../../content/galleries/trip/a.jpg").data :=
  ⟨⟨"../../content/".data, "trip/a.jpg".data, by decide⟩,
   localPathToCloudinaryPublicId_invariants "../../content/galleries/trip/a.jpg"
     ⟨"../../content/".data, "trip/a.jpg".data, by decide⟩⟩

/-- Consuming through a slash strictly shrinks the input. -/
theorem dropThroughSlash_length : ∀ l r : List Char, dropThroughSlash l = some r → r.length < l.length := by
  intro l
  induction l with
  | nil =>
    intro r h
    cases h
  | cons c rest ih =>
    intro r h
    simp only [dropThroughSlash] at h
    by_cases hc : c = '/'
    · rw [if_pos hc] at h
      cases h
      simp only [List.length_cons]
      omega
    · rw [if_neg hc] at h
      have := ih r h
      simp only [List.length_cons]
      omega

/-- Consuming one chunk strictly shrinks the input. -/
theorem takeChunk_length (l r : List Char) (h : takeChunk l = some r) : r.length < l.length := by
  cases l with
  | nil => cases h
  | cons c rest =>
    simp only [takeChunk] at h
    by_cases hc : c = '/'
    · rw [if_pos hc] at h
      cases h
    · rw [if_neg hc] at h
      have := dropThroughSlash_length rest r h
      simp only [List.length_cons]
      omega

/-- The fuel of the greedy star matcher is irrelevant once it covers the
input length. -/
theorem starCapAux_fuel : ∀ f1 : Nat, ∀ l : List Char, ∀ f2 : Nat,
    l.length ≤ f1 → l.length ≤ f2 → starCapAux f1 l = starCapAux f2 l := by
  intro f1
  induction f1 with
  | zero =>
    intro l f2 h1 _
    have hl : l = [] := List.length_eq_zero.mp (Nat.le_zero.mp h1)
    subst hl
    cases f2 with
    | zero => rfl
    | succ f2 => rfl
  | succ f1 ih =>
    intro l f2 h1 h2
    cases f2 with
    | zero =>
      have hl : l = [] := List.length_eq_zero.mp (Nat.le_zero.mp h2)
      subst hl
      rfl
    | succ f2 =>
      rcases htc : takeChunk l with _ | l'
      · simp only [starCapAux, htc]
      · have hlen := takeChunk_length l l' htc
        simp only [starCapAux, htc]
        rw [ih l' f2 (by omega) (by omega)]

/-- With no slash in the input there is no chunk to consume. -/
theorem dropThroughSlash_none : ∀ l : List Char, '/' ∉ l → dropThroughSlash l = none := by
  intro l
  induction l with
  | nil => intro _; rfl
  | cons c rest ih =>
    intro h
    simp only [dropThroughSlash]
    rw [if_neg (fun hc : c = '/' => h (by rw [← hc]; exact List.mem_cons_self c rest))]
    exact ih (fun hm => h (List.mem_cons_of_mem c hm))

/-- On a nonempty slash-free line-terminator-free input, the star matches
zero chunks and the capture takes everything. -/
theorem starCap_no_slash (l : List Char) (h1 : l ≠ []) (h2 : '/' ∉ l)
    (h3 : ∀ c ∈ l, isLineTerm c = false) : starCap l = some l := by
  have htc : takeChunk l = none := by
    cases l with
    | nil => rfl
    | cons c rest =>
      simp only [takeChunk]
      rw [if_neg (fun hc : c = '/' => h2 (by rw [← hc]; exact List.mem_cons_self c rest))]
      exact dropThroughSlash_none rest (fun hm => h2 (List.mem_cons_of_mem c hm))
  have hv : validRest l = true := by
    simp only [validRest, Bool.and_eq_true]
    constructor
    · cases l with
      | nil => exact absurd rfl h1
      | cons c rest => rfl
    · rw [List.all_eq_true]
      intro c hc
      simp [h3 c hc]
  unfold starCap
  cases hl : l.length with
  | zero => exact absurd (List.length_eq_zero.mp hl) h1
  | succ n =>
    simp only [starCapAux, htc, hv]
    rfl

/-- Consuming a slash-free segment and its slash. -/
theorem dropThroughSlash_chunk : ∀ seg rest : List Char, '/' ∉ seg →
    dropThroughSlash (seg ++ '/' :: rest) = some rest := by
  intro seg
  induction seg with
  | nil =>
    intro rest _
    simp [dropThroughSlash]
  | cons c cs ih =>
    intro rest h
    simp only [List.cons_append, dropThroughSlash]
    rw [if_neg (fun hc : c = '/' => h (by rw [← hc]; exact List.mem_cons_self c cs))]
    exact ih rest (fun hm => h (List.mem_cons_of_mem c hm))

/-- One `[^/]+\/` chunk consumes a nonempty slash-free segment and the
following slash. -/
theorem takeChunk_chunk (seg rest : List Char) (hne : seg ≠ []) (hs : '/' ∉ seg) :
    takeChunk (seg ++ '/' :: rest) = some rest := by
  cases seg with
  | nil => exact absurd rfl hne
  | cons c cs =>
    simp only [List.cons_append, takeChunk]
    rw [if_neg (fun hc : c = '/' => hs (by rw [← hc]; exact List.mem_cons_self c cs))]
    exact dropThroughSlash_chunk cs rest (fun hm => hs (List.mem_cons_of_mem c hm))

/-- The greedy star consumes a leading chunk whenever the remainder
already matches. -/
theorem starCap_chunk (seg rest cap : List Char) (hne : seg ≠ []) (hs : '/' ∉ seg)
    (h : starCap rest = some cap) : starCap (seg ++ '/' :: rest) = some cap := by
  unfold starCap
  cases hL : (seg ++ '/' :: rest).length with
  | zero =>
    rw [List.length_append, List.length_cons] at hL
    omega
  | succ m =>
    have hm : rest.length ≤ m := by
      rw [List.length_append, List.length_cons] at hL
      omega
    simp only [starCapAux, takeChunk_chunk seg rest hne hs]
    rw [starCapAux_fuel m rest rest.length hm (le_refl _)]
    unfold starCap at h
    rw [h]

/-- A clash within the overlap defeats the prefix test for every
continuation. -/
theorem clash_not_prefixOf : ∀ pat s t : List Char, clash pat s = true →
    pat.isPrefixOf (s ++ t) = false := by
  intro pat
  induction pat with
  | nil =>
    intro s t h
    cases s <;> simp [clash] at h
  | cons p ps ih =>
    intro s t h
    cases s with
    | nil => simp [clash] at h
    | cons c cs =>
      simp only [clash, Bool.or_eq_true] at h
      simp only [List.cons_append, List.isPrefixOf_cons₂]
      rcases h with h | h
      · have hne : (p == c) = false := by
          rw [bne_iff_ne] at h
          exact beq_eq_false_iff_ne.mpr h
        rw [hne, Bool.false_and]
      · rw [ih cs t h, Bool.and_false]

/-- Scanning passes over a block in which every window clashes with the
`"/upload/"` literal. -/
theorem uploadScan_skip : ∀ p rest : List Char,
    (∀ s ∈ p.tails, s ≠ [] → clash uploadChars s = true) →
    uploadScan (p ++ rest) = uploadScan rest := by
  intro p
  induction p with
  | nil =>
    intro rest _
    rfl
  | cons c p' ih =>
    intro rest hall
    have hcl : clash uploadChars (c :: p') = true :=
      hall (c :: p') (by rw [List.tails_cons]; exact List.mem_cons_self _ _) (List.cons_ne_nil _ _)
    have hpf2 : uploadChars.isPrefixOf (c :: (p' ++ rest)) = false :=
      clash_not_prefixOf uploadChars (c :: p') rest hcl
    simp only [List.cons_append, uploadScan]
    rw [if_neg (by simp [hpf2])]
    exact ih rest (fun s hs hsne => hall s (by rw [List.tails_cons]; exact List.mem_cons_of_mem _ hs) hsne)

/-- At the `"/upload/"` literal the scan returns whatever the greedy star
captures from the remainder. -/
theorem uploadScan_at_upload (tail cap : List Char) (h : starCap tail = some cap) :
    uploadScan (uploadChars ++ tail) = some cap := by
  have hsh : uploadChars ++ tail =
      '/' :: 'u' :: 'p' :: 'l' :: 'o' :: 'a' :: 'd' :: '/' :: tail := by
    rw [show uploadChars = ['/', 'u', 'p', 'l', 'o', 'a', 'd', '/'] from by decide]
    rfl
  rw [hsh, uploadScan.eq_2]
  have hpre : uploadChars.isPrefixOf ('/' :: 'u' :: 'p' :: 'l' :: 'o' :: 'a' :: 'd' :: '/' :: tail) = true := by
    rw [show uploadChars = ['/', 'u', 'p', 'l', 'o', 'a', 'd', '/'] from by decide]
    simp [List.isPrefixOf_cons₂]
  rw [if_pos hpre]
  have hdrop : List.drop 8 ('/' :: 'u' :: 'p' :: 'l' :: 'o' :: 'a' :: 'd' :: '/' :: tail) = tail := by
    simp [List.drop]
  rw [hdrop, h]

/-- Every nonempty window of the URL part before the upload literal
clashes with `"/upload/"`. -/
theorem prefix37_clash :
    ∀ s ∈ ("https://res.cloudinary.com/demo/image" : String).data.tails,
      s ≠ [] → clash uploadChars s = true := by decide

/-- Every character the decimal printer emits is a digit. -/
theorem natDigitsAux_mem : ∀ fuel n : Nat, ∀ c ∈ natDigitsAux fuel n, c ∈ "0123456789".data := by
  intro fuel
  induction fuel with
  | zero =>
    intro n c hc
    cases hc
  | succ fuel ih =>
    intro n c hc
    simp only [natDigitsAux] at hc
    by_cases hn : n < 10
    · rw [if_pos hn] at hc
      rw [List.mem_singleton] at hc
      subst hc
      interval_cases n <;> decide
    · rw [if_neg hn] at hc
      rcases List.mem_append.mp hc with h | h
      · exact ih (n / 10) c h
      · rw [List.mem_singleton] at h
        subst h
        have h10 : n % 10 < 10 := Nat.mod_lt n (by omega)
        generalize n % 10 = m at h10
        interval_cases m <;> decide

/-- The decimal printer never emits a slash. -/
theorem natStr_no_slash (n : Nat) : '/' ∉ (natStr n).data := by
  intro h
  have := natDigitsAux_mem (n + 1) n '/' h
  revert this
  decide

/-- Every pushed transformation token is nonempty and slash-free. -/
theorem token_facts (o : CloudinaryImageOptions) :
    ∀ t ∈ transformTokens o, t.data ≠ [] ∧ '/' ∉ t.data := by
  have hwnum : ∀ (pre : String) (n : Nat), pre.data = ['w', '_'] ∨ pre.data = ['h', '_'] ∨ pre.data = ['q', '_'] →
      (pre ++ natStr n).data ≠ [] ∧ '/' ∉ (pre ++ natStr n).data := by
    intro pre n hpre
    rw [String.data_append]
    constructor
    · rcases hpre with h | h | h <;> rw [h] <;> simp
    · intro hmem
      rcases List.mem_append.mp hmem with h2 | h2
      · rcases hpre with h | h | h <;> rw [h] at h2 <;> revert h2 <;> decide
      · exact natStr_no_slash n h2
  intro t ht
  unfold transformTokens at ht
  simp only [List.mem_append] at ht
  rcases ht with ((((htw | hth) | htc) | htg) | htq) | htf
  · rcases hw : o.width with _ | w
    · rw [hw] at htw
      cases htw
    · rw [hw] at htw
      have htw2 : t ∈ (if w = 0 then ([] : List String) else ["w_" ++ natStr w]) := htw
      by_cases hw0 : w = 0
      · rw [if_pos hw0] at htw2
        cases htw2
      · rw [if_neg hw0] at htw2
        rw [List.mem_singleton] at htw2
        subst htw2
        exact hwnum "w_" w (Or.inl (by decide))
  · rcases hh : o.height with _ | h
    · rw [hh] at hth
      cases hth
    · rw [hh] at hth
      have hth2 : t ∈ (if h = 0 then ([] : List String) else ["h_" ++ natStr h]) := hth
      by_cases hh0 : h = 0
      · rw [if_pos hh0] at hth2
        cases hth2
      · rw [if_neg hh0] at hth2
        rw [List.mem_singleton] at hth2
        subst hth2
        exact hwnum "h_" h (Or.inr (Or.inl (by decide)))
  · rcases hc : o.crop with _ | cv
    · rw [hc] at htc
      cases htc
    · rw [hc] at htc
      rw [List.mem_singleton] at htc
      subst htc
      cases cv <;> exact ⟨by decide, by decide⟩
  · rcases hg : o.gravity with _ | gv
    · rw [hg] at htg
      cases htg
    · rw [hg] at htg
      rw [List.mem_singleton] at htg
      subst htg
      cases gv <;> exact ⟨by decide, by decide⟩
  · rcases hq : o.quality with _ | qv
    · rw [hq] at htq
      cases htq
    · rcases qv with _ | n
      · rw [hq] at htq
        rw [List.mem_singleton] at htq
        subst htq
        exact ⟨by decide, by decide⟩
      · rw [hq] at htq
        have htq2 : t ∈ (if n = 0 then ([] : List String) else ["q_" ++ natStr n]) := htq
        by_cases hn0 : n = 0
        · rw [if_pos hn0] at htq2
          cases htq2
        · rw [if_neg hn0] at htq2
          rw [List.mem_singleton] at htq2
          subst htq2
          exact hwnum "q_" n (Or.inr (Or.inr (by decide)))
  · rcases hf : o.format with _ | fv
    · rw [hf] at htf
      cases htf
    · rw [hf] at htf
      have htf2 : t ∈ (if fv = ImgFormat.auto then ([] : List String) else ["f_" ++ fv.str]) := htf
      by_cases hfa : fv = ImgFormat.auto
      · rw [if_pos hfa] at htf2
        cases htf2
      · rw [if_neg hfa] at htf2
        rw [List.mem_singleton] at htf2
        subst htf2
        cases fv <;> exact ⟨by decide, by decide⟩

/-- A comma join of nonempty slash-free tokens is nonempty and
slash-free. -/
theorem joinComma_facts : ∀ ts : List String, ts ≠ [] →
    (∀ t ∈ ts, t.data ≠ [] ∧ '/' ∉ t.data) →
    (joinComma ts).data ≠ [] ∧ '/' ∉ (joinComma ts).data := by
  intro ts
  induction ts with
  | nil =>
    intro h _
    exact absurd rfl h
  | cons s rest ih =>
    intro _ hall
    cases rest with
    | nil =>
      simp only [joinComma]
      exact hall s (List.mem_cons_self _ _)
    | cons s2 rest2 =>
      have hrec := ih (List.cons_ne_nil _ _) (fun t htm => hall t (List.mem_cons_of_mem _ htm))
      have hs := hall s (List.mem_cons_self _ _)
      simp only [joinComma]
      rw [String.data_append, String.data_append]
      constructor
      · intro hcon
        rcases List.append_eq_nil.mp hcon with ⟨h1, _⟩
        rcases List.append_eq_nil.mp h1 with ⟨h2, _⟩
        exact hs.1 h2
      · intro hmem
        rcases List.mem_append.mp hmem with h2 | h2
        · rcases List.mem_append.mp h2 with h3 | h3
          · exact hs.2 h3
          · revert h3
            decide
        · exact hrec.2 h2

/-- Pattern extraction over a URL built from the fixed template with the
cloud name `"demo"`, any transformation segment, and a nonempty
slash-free line-terminator-free identifier: the capture is exactly the
identifier. -/
theorem extract_core (T : CloudinaryImageOptions) (idl : List Char)
    (h1 : idl ≠ []) (h2 : '/' ∉ idl) (h3 : ∀ c ∈ idl, isLineTerm c = false) :
    uploadScan ("https://res.cloudinary.com/".data ++ ("demo".data ++
      ("/image/upload/".data ++ (transformSegment T ++ idl)))) = some idl := by
  have hstar : starCap (transformSegment T ++ idl) = some idl := by
    rcases hts : transformTokens T with _ | ⟨t0, ts'⟩
    · have hseg : transformSegment T = [] := by
        unfold transformSegment
        rw [hts]
      rw [hseg, List.nil_append]
      exact starCap_no_slash idl h1 h2 h3
    · have hne2 : transformTokens T ≠ [] := by
        rw [hts]
        exact List.cons_ne_nil _ _
      have hjoin := joinComma_facts (transformTokens T) hne2 (token_facts T)
      have hseg : transformSegment T = (joinComma (transformTokens T)).data ++ ['/'] := by
        unfold transformSegment
        rw [hts]
      rw [hseg, List.append_assoc]
      exact starCap_chunk _ idl idl hjoin.1 hjoin.2 (starCap_no_slash idl h1 h2 h3)
  have hsplit : ("https://res.cloudinary.com/".data ++ "demo".data) ++ "/image/upload/".data =
      ("https://res.cloudinary.com/demo/image" : String).data ++ uploadChars := by decide
  have hassoc : "https://res.cloudinary.com/".data ++ ("demo".data ++
      ("/image/upload/".data ++ (transformSegment T ++ idl))) =
      ("https://res.cloudinary.com/demo/image" : String).data ++
        (uploadChars ++ (transformSegment T ++ idl)) := by
    rw [← List.append_assoc, ← List.append_assoc, hsplit, List.append_assoc]
  rw [hassoc, uploadScan_skip _ _ prefix37_clash]
  exact uploadScan_at_upload _ _ hstar

/-- C1, amended: for every transform spec and every nonempty identifier
without special characters and without a slash, extracting the public id
from the built URL recovers the identifier. -/
theorem extract_recovers_slashfree_id (id : String) (T : CloudinaryImageOptions)
    (h1 : id ≠ "") (h2 : '/' ∉ id.data) (h3 : ∀ c ∈ id.data, isLineTerm c = false) :
    ∃ url, buildCloudinaryUrl env0 id T = Except.ok url ∧
      getPublicIdFromCloudinaryUrl url = some id := by
  have h1d : id.data ≠ [] := fun hd => h1 (string_data_inj id "" hd)
  have hclean : cleanOneSlash id.data = id.data := by
    cases hd : id.data with
    | nil => rfl
    | cons c rest =>
      have hc : c ≠ '/' := by
        intro hcon
        apply h2
        rw [hd, hcon]
        exact List.mem_cons_self _ _
      unfold cleanOneSlash
      split
      · rename_i rest2 heq
        injection heq with hc2 _
        exact absurd hc2 hc
      · rfl
  have hbuild : buildCloudinaryUrl env0 id T = Except.ok (String.mk
      (((("https://res.cloudinary.com/".data ++ "demo".data) ++ "/image/upload/".data) ++
        transformSegment T) ++ cleanOneSlash id.data)) := rfl
  rw [hclean] at hbuild
  refine ⟨_, hbuild, ?_⟩
  unfold getPublicIdFromCloudinaryUrl
  have hdata : (String.mk (((("https://res.cloudinary.com/".data ++ "demo".data) ++
      "/image/upload/".data) ++ transformSegment T) ++ id.data)).data =
      ((("https://res.cloudinary.com/".data ++ "demo".data) ++ "/image/upload/".data) ++
        transformSegment T) ++ id.data := rfl
  rw [hdata]
  have hnorm : ((("https://res.cloudinary.com/".data ++ "demo".data) ++ "/image/upload/".data) ++
      transformSegment T) ++ id.data =
      "https://res.cloudinary.com/".data ++ ("demo".data ++
        ("/image/upload/".data ++ (transformSegment T ++ id.data))) := by
    simp [List.append_assoc]
  rw [hnorm, extract_core T id.data h1d h2 h3]
  rfl

/-- Counterexample to C1 as stated: for the multi-segment identifier
`galleries/trip/a.jpg` the extractor returns only the final segment,
because the greedy `(?:[^/]+\/)*` consumes the identifier's own path
segments. -/
theorem extract_multisegment_counterexample :
    buildCloudinaryUrl env0 "galleries/trip/a.jpg" noOptions =
      Except.ok "https://res.cloudinary.com/demo/image/upload/galleries/trip/a.jpg" ∧
    getPublicIdFromCloudinaryUrl "https://res.cloudinary.com/demo/image/upload/galleries/trip/a.jpg" =
      some "a.jpg" ∧
    ("a.jpg" : String) ≠ "galleries/trip/a.jpg" :=
  ⟨rfl, by decide, by decide⟩

/-- Closed instance of `extract_recovers_slashfree_id` at an identifier
without slash and a transform spec with several options. -/
theorem extract_recovers_slashfree_id_witness :
    (("a.jpg" : String) ≠ "") ∧
    ∃ url, buildCloudinaryUrl env0 "a.jpg" optsMulti = Except.ok url ∧
      getPublicIdFromCloudinaryUrl url = some "a.jpg" :=
  ⟨by decide,
   extract_recovers_slashfree_id "a.jpg" optsMulti (by decide) (by decide) (by decide)⟩
